import Mathlib

/-!
Shallow embedding of the UltraWatchTogether signaling server core
(`src/server.js`): room store, membership indexes, message handlers,
close/teardown path and the keepalive sweep.

JavaScript strings are modelled as `List Char`; JavaScript `Map`s as
association lists whose operations mirror `Map.get` / `Map.set` /
`Map.delete` (insertion order preserved, in-place update on existing key).
Each WebSocket is identified by its `clientId`; the per-socket mutable
fields (`roomId`, `role`, `isAlive`, readyState, membership in
`wss.clients`) live in a connection table keyed by that identifier.
Outbound traffic is modelled as the list of (recipient, message) pairs a
handler emits; `safeSend` drops the pair when the recipient's transport is
not open, exactly as the source's readyState guard does.
-/

namespace UWT

abbrev Str := List Char

/-- Connection identifier (a uuid string in the source). -/
abbrev CId := Str

/-- JavaScript `String.prototype.trim`. -/
def jsTrim (s : Str) : Str :=
  ((s.dropWhile Char.isWhitespace).reverse.dropWhile Char.isWhitespace).reverse

inductive Role where
  | host
  | viewer
deriving DecidableEq, Repr, Fintype

/-- Per-socket state: `ws.roomId`, `ws.role`, `ws.isAlive`, whether
`readyState === OPEN`, and whether the socket is still in `wss.clients`
(its close event has not yet fired). -/
structure Conn where
  roomId : Option Str
  role : Option Role
  isAlive : Bool
  open_ : Bool
  registered : Bool
deriving DecidableEq, Repr

/-- A room: host identifier plus the three parallel indexes
(`clients`, `roles`, `names`) keyed by connection identifier. -/
structure Room where
  roomId : Str
  hostId : Option CId
  clients : List (CId × Unit)
  roles : List (CId × Role)
  names : List (CId × Str)
  createdAt : Nat
deriving DecidableEq, Repr

structure Descriptor where
  id : CId
  name : Str
deriving DecidableEq, Repr

structure Roster where
  host : Option Descriptor
  viewers : List Descriptor
deriving DecidableEq, Repr

inductive OutMsg where
  | hello (id : CId)
  | joined (roomId : Str) (id : CId) (role : Role) (hostId : Option CId) (roster : Roster)
  | hostReady (hostId : CId)
  | viewerJoined (roomId : Str) (viewerId : CId) (viewerName : Str)
  | viewerLeft (roomId : Str) (viewerId : CId)
  | hostLeft (roomId : Str) (message : Str)
  | system (message : Str)
  | chat (roomId : Str) (sender : CId) (name : Str) (message : Str) (ts : Nat)
  | signal (roomId : Str) (sender : CId) (data : Str)
  | error (message : Str)
  | ping
deriving DecidableEq, Repr

/-- A parsed inbound message (`msg.type` dispatch); `other` covers every
unrecognized type. -/
inductive InMsg where
  | join (roomId : Str) (role : Str) (name : Str)
  | signal (target : Str) (data : Str)
  | chat (message : Str)
  | leave
  | other (t : Str)
deriving DecidableEq, Repr

structure ServerState where
  rooms : List (Str × Room)
  conns : List (CId × Conn)
  now : Nat
deriving DecidableEq, Repr

inductive Event where
  | connect (cid : CId)
  | message (cid : CId) (m : InMsg)
  | close (cid : CId)
  | pong (cid : CId)
  | sweep
deriving DecidableEq, Repr

/-! ### Association-list map operations (JavaScript `Map` semantics) -/

def mget {α β : Type} [DecidableEq α] (m : List (α × β)) (k : α) : Option β :=
  match m with
  | [] => none
  | (a, b) :: t => if a = k then some b else mget t k

def mhas {α β : Type} [DecidableEq α] (m : List (α × β)) (k : α) : Bool :=
  (mget m k).isSome

def setEntry {α β : Type} [DecidableEq α] (k : α) (v : β) (p : α × β) : α × β :=
  if p.1 = k then (k, v) else p

def mset {α β : Type} [DecidableEq α] (m : List (α × β)) (k : α) (v : β) : List (α × β) :=
  if mhas m k then m.map (setEntry k v) else m ++ [(k, v)]

def mdel {α β : Type} [DecidableEq α] (m : List (α × β)) (k : α) : List (α × β) :=
  m.filter (fun p => decide (p.1 ≠ k))

def mkeys {α β : Type} (m : List (α × β)) : List α :=
  m.map (·.1)

/-! ### Sending -/

abbrev Send := CId × OutMsg

/-- Whether the socket's `readyState` is `OPEN`. -/
def connOpen (s : ServerState) (cid : CId) : Bool :=
  match mget s.conns cid with
  | some c => c.open_
  | none => false

/-- `safeSend`: the send is dropped unless the recipient is open. -/
def safeSend (s : ServerState) (cid : CId) (msg : OutMsg) : List Send :=
  if connOpen s cid then [(cid, msg)] else []

/-- `broadcast`: one `safeSend` per room member, in index order. -/
def sendAll (s : ServerState) (cids : List CId) (msg : OutMsg) : List Send :=
  match cids with
  | [] => []
  | c :: t => safeSend s c msg ++ sendAll s t msg

/-! ### Room helpers -/

def emptyRoom (roomId : Str) (now : Nat) : Room :=
  { roomId := roomId, hostId := none, clients := [], roles := [], names := [], createdAt := now }

/-- Insert a connection into the three parallel indexes (join lines 132-134). -/
def insert3 (room : Room) (cid : CId) (role : Role) (name : Str) : Room :=
  { room with
    clients := mset room.clients cid (),
    roles := mset room.roles cid role,
    names := mset room.names cid name }

/-- Delete a connection from the three parallel indexes (leave / rollback). -/
def remove3 (room : Room) (cid : CId) : Room :=
  { room with
    clients := mdel room.clients cid,
    roles := mdel room.roles cid,
    names := mdel room.names cid }

/-- `room.hostId && room.clients.get(room.hostId)`: the viewer-join gate. -/
def hostOnline (room : Room) : Bool :=
  match room.hostId with
  | none => false
  | some hid => mhas room.clients hid

def defaultName (role : Role) : Str :=
  match role with
  | .host => ("Host").toList
  | .viewer => ("Viewer").toList

def viewersOf (roles : List (CId × Role)) (names : List (CId × Str)) : List Descriptor :=
  match roles with
  | [] => []
  | (id, r) :: t =>
    (if r = Role.viewer then [⟨id, (mget names id).getD (("Viewer").toList)⟩] else [])
      ++ viewersOf t names

/-- `roster(room)`: viewers are the role-index entries whose value is
"viewer"; the host descriptor comes from `room.hostId` when set. -/
def roster (room : Room) : Roster :=
  { host :=
      match room.hostId with
      | some h => some ⟨h, (mget room.names h).getD (("Host").toList)⟩
      | none => none,
    viewers := viewersOf room.roles room.names }

/-! ### Connection-table helpers -/

def updEntry {α β : Type} [DecidableEq α] (k : α) (g : β → β) (p : α × β) : α × β :=
  if p.1 = k then (p.1, g p.2) else p

def updateConn (s : ServerState) (cid : CId) (f : Conn → Conn) : ServerState :=
  { s with conns := s.conns.map (updEntry cid f) }

/-- `otherWs.close()` on a list of members: each transport leaves OPEN
immediately; the close events are delivered later as separate events. -/
def closeMany (s : ServerState) (cids : List CId) : ServerState :=
  match cids with
  | [] => s
  | c :: t => closeMany (updateConn s c (fun cc => { cc with open_ := false })) t

/-! ### The close handler (`ws.on("close")`, lines 227-261) -/

def handleClose (s : ServerState) (cid : CId) : ServerState × List Send :=
  match mget s.conns cid with
  | none => (s, [])
  | some c =>
    if c.registered = false then (s, [])
    else
      let s1 := updateConn s cid (fun cc => { cc with registered := false, open_ := false })
      match c.roomId with
      | none => (s1, [])
      | some roomId =>
        match mget s1.rooms roomId with
        | none => (s1, [])
        | some room =>
          let name := (mget room.names cid).getD
            (if c.role = some Role.host then ("Host").toList else ("Viewer").toList)
          let room1 := remove3 room cid
          if room.hostId = some cid then
            let outs := sendAll s1 (mkeys room1.clients)
              (.hostLeft roomId (("Host left. Room closed.").toList))
            let s2 := closeMany s1 (mkeys room1.clients)
            let s3 := { s2 with rooms := mdel s2.rooms roomId }
            (s3, outs)
          else
            let hostOuts :=
              match room1.hostId with
              | some hid =>
                if mhas room1.clients hid then safeSend s1 hid (.viewerLeft roomId cid) else []
              | none => []
            let sys := sendAll s1 (mkeys room1.clients)
              (.system (name ++ (" left.").toList))
            let s2 := { s1 with
              rooms :=
                if room1.clients.length = 0 then mdel s1.rooms roomId
                else mset s1.rooms roomId room1 }
            (s2, hostOuts ++ sys)

/-- The `host_ready` loop of the host-join branch: every role-index entry
with value viewer and a different identifier, looked up in the handle
index, gets the notice. -/
def hostReadySends (s : ServerState) (room : Room) (roles : List (CId × Role)) (hostCid : CId) :
    List Send :=
  match roles with
  | [] => []
  | (id, r) :: t =>
    (if r = Role.viewer ∧ id ≠ hostCid then
       if mhas room.clients id then safeSend s id (.hostReady hostCid) else []
     else [])
      ++ hostReadySends s room t hostCid

/-! ### The message handler (`ws.on("message")`, lines 112-225) -/

/-- Host branch of the join handler (lines 139-152), entered after the
connection is in the three indexes and `ws.roomId`/`ws.role` are set:
`hostId` is unconditionally overwritten. -/
def joinAsHost (s1 : ServerState) (cid : CId) (roomId name : Str) (room1 : Room) :
    ServerState × List Send :=
  let room2 := { room1 with hostId := some cid }
  let s2 := { s1 with rooms := mset s1.rooms roomId room2 }
  let ack := safeSend s2 cid (.joined roomId cid .host none (roster room2))
  let sys := sendAll s2 (mkeys room2.clients)
    (.system (name ++ (" is hosting room ").toList ++ roomId))
  let ready := hostReadySends s2 room2 room2.roles cid
  (s2, ack ++ sys ++ ready)

/-- Viewer branch of the join handler (lines 154-180): gated on a live
host; on failure the three index insertions are rolled back and
`ws.roomId`/`ws.role` reset. -/
def joinAsViewer (s1 : ServerState) (cid : CId) (roomId name : Str) (room1 : Room) :
    ServerState × List Send :=
  if hostOnline room1 then
    let hid := room1.hostId.getD []
    let s2 := { s1 with rooms := mset s1.rooms roomId room1 }
    let ack := safeSend s2 cid (.joined roomId cid .viewer room1.hostId (roster room1))
    let vj := safeSend s2 hid (.viewerJoined roomId cid name)
    let sys := sendAll s2 (mkeys room1.clients) (.system (name ++ (" joined.").toList))
    (s2, ack ++ vj ++ sys)
  else
    let room2 := remove3 room1 cid
    let s2 := { s1 with rooms := mset s1.rooms roomId room2 }
    let s3 := updateConn s2 cid (fun cc => { cc with roomId := none, role := none })
    (s3, safeSend s3 cid (.error (("Room exists but host is not online yet.").toList)))

/-- `String(msg.name || "").trim().slice(0, 40) || default` (line 125). -/
def jsName (rawName : Str) (role : Role) : Str :=
  let name0 := (jsTrim rawName).take 40
  if name0 = [] then defaultName role else name0

/-- `ensureRoom`: the room the join operates on — the stored one, or a
fresh empty room for an unseen identifier. -/
def roomBase (s : ServerState) (roomId : Str) : Room :=
  match mget s.rooms roomId with
  | some r => r
  | none => emptyRoom roomId s.now

/-- The join handler (lines 122-183). -/
def handleJoin (s : ServerState) (cid : CId) (rawRoom rawRole rawName : Str) :
    ServerState × List Send :=
  let roomId := jsTrim rawRoom
  let role := if rawRole = ("host").toList then Role.host else Role.viewer
  let name := jsName rawName role
  if roomId = [] then (s, safeSend s cid (.error (("Missing roomId").toList)))
  else
    let room1 := insert3 (roomBase s roomId) cid role name
    let s1 := updateConn s cid (fun cc => { cc with roomId := some roomId, role := some role })
    match role with
    | .host => joinAsHost s1 cid roomId name room1
    | .viewer => joinAsViewer s1 cid roomId name room1

/-- The signal handler (lines 185-204). -/
def handleSignal (s : ServerState) (cid : CId) (c : Conn) (rawTo data : Str) :
    ServerState × List Send :=
  match c.roomId with
  | none => (s, safeSend s cid (.error (("Not in a room").toList)))
  | some roomId =>
    match mget s.rooms roomId with
    | none => (s, safeSend s cid (.error (("Room not found").toList)))
    | some room =>
      let tgt := jsTrim rawTo
      if tgt = [] ∨ mhas room.clients tgt = false then
        (s, safeSend s cid (.error (("Invalid 'to' target").toList)))
      else
        (s, safeSend s tgt (.signal roomId cid data))

/-- The chat handler (lines 206-217). -/
def handleChat (s : ServerState) (cid : CId) (c : Conn) (rawMsg : Str) :
    ServerState × List Send :=
  match c.roomId with
  | none => (s, safeSend s cid (.error (("Not in a room").toList)))
  | some roomId =>
    match mget s.rooms roomId with
    | none => (s, safeSend s cid (.error (("Room not found").toList)))
    | some room =>
      let message := rawMsg.take 2000
      let senderName := (mget room.names cid).getD (("User").toList)
      (s, sendAll s (mkeys room.clients) (.chat roomId cid senderName message s.now))

def handleMessage (s : ServerState) (cid : CId) (c : Conn) (m : InMsg) : ServerState × List Send :=
  match m with
  | .join rawRoom rawRole rawName => handleJoin s cid rawRoom rawRole rawName
  | .signal rawTo data => handleSignal s cid c rawTo data
  | .chat rawMsg => handleChat s cid c rawMsg
  | .leave => handleClose s cid
  | .other t =>
    (s, safeSend s cid (.error ((("Unknown message type: ").toList) ++ t)))

/-! ### Keepalive sweep (lines 90-99) -/

def sweepStep (s : ServerState) (cid : CId) : ServerState × List Send :=
  match mget s.conns cid with
  | none => (s, [])
  | some c =>
    if c.registered = false then (s, [])
    else if c.isAlive = false then handleClose s cid
    else (updateConn s cid (fun cc => { cc with isAlive := false }), [(cid, .ping)])

def sweepFold (s : ServerState) (outs : List Send) (l : List CId) : ServerState × List Send :=
  match l with
  | [] => (s, outs)
  | a :: t =>
    let r := sweepStep s a
    sweepFold r.1 (outs ++ r.2) t

def probeAndReap (s : ServerState) : ServerState × List Send :=
  sweepFold s [] (mkeys s.conns)

/-! ### Top-level step -/

def newConn : Conn :=
  { roomId := none, role := none, isAlive := true, open_ := true, registered := true }

def step (s : ServerState) (e : Event) : ServerState × List Send :=
  match e with
  | .connect cid =>
    if (mget s.conns cid).isSome then (s, [])
    else
      let s1 := { s with conns := s.conns ++ [(cid, newConn)] }
      (s1, safeSend s1 cid (.hello cid))
  | .message cid m =>
    match mget s.conns cid with
    | none => (s, [])
    | some c => if c.registered then handleMessage s cid c m else (s, [])
  | .close cid => handleClose s cid
  | .pong cid => (updateConn s cid (fun cc => { cc with isAlive := true }), [])
  | .sweep => probeAndReap s

/-! ### Association-list lemmas -/

theorem mget_cons {α β : Type} [DecidableEq α] (x : α × β) (t : List (α × β)) (k : α) :
    mget (x :: t) k = if x.1 = k then some x.2 else mget t k := rfl

theorem mget_mem {α β : Type} [DecidableEq α] {m : List (α × β)} {k : α} {v : β}
    (h : mget m k = some v) : (k, v) ∈ m := by
  induction m with
  | nil => simp [mget] at h
  | cons p t ih =>
    by_cases hp : p.1 = k
    · obtain ⟨a, b⟩ := p
      simp only [mget] at h
      simp only at hp
      rw [if_pos hp] at h
      cases h
      subst hp
      exact List.mem_cons_self _ _
    · obtain ⟨a, b⟩ := p
      simp only [mget] at h
      simp only at hp
      rw [if_neg hp] at h
      exact List.mem_cons_of_mem _ (ih h)

theorem mget_isSome_iff {α β : Type} [DecidableEq α] {m : List (α × β)} {k : α} :
    (mget m k).isSome = true ↔ k ∈ mkeys m := by
  induction m with
  | nil => simp [mget, mkeys]
  | cons p t ih =>
    obtain ⟨a, b⟩ := p
    by_cases hp : a = k
    · subst hp
      simp [mget, mkeys]
    · simp [mget, mkeys, hp, ih, Ne.symm hp]

theorem mhas_iff {α β : Type} [DecidableEq α] {m : List (α × β)} {k : α} :
    mhas m k = true ↔ k ∈ mkeys m := by
  unfold mhas
  exact mget_isSome_iff

theorem mhas_congr {α β γ : Type} [DecidableEq α] {m1 : List (α × β)} {m2 : List (α × γ)}
    (h : mkeys m1 = mkeys m2) (k : α) : mhas m1 k = mhas m2 k := by
  rw [Bool.eq_iff_iff, mhas_iff, mhas_iff, h]

theorem setEntry_eq {α β : Type} [DecidableEq α] (k : α) (v : β) (a : α) (b : β) :
    setEntry k v (a, b) = if a = k then (k, v) else (a, b) := rfl

theorem setEntry_self {α β : Type} [DecidableEq α] (k : α) (v b : β) :
    setEntry k v (k, b) = (k, v) := by
  unfold setEntry
  exact if_pos rfl

theorem setEntry_other {α β : Type} [DecidableEq α] {k a : α} (v : β) (b : β) (h : ¬a = k) :
    setEntry k v (a, b) = (a, b) := by
  unfold setEntry
  exact if_neg h

theorem mkeys_map_set {α β : Type} [DecidableEq α] (m : List (α × β)) (k : α) (v : β) :
    mkeys (m.map (setEntry k v)) = mkeys m := by
  induction m with
  | nil => rfl
  | cons p t ih =>
    obtain ⟨a, b⟩ := p
    by_cases hp : a = k
    · subst hp
      rw [List.map_cons, setEntry_self]
      simp only [mkeys, List.map_cons] at ih ⊢
      simp [ih]
    · rw [List.map_cons, setEntry_other _ _ hp]
      simp only [mkeys, List.map_cons] at ih ⊢
      simp [ih]

theorem mkeys_mset {α β : Type} [DecidableEq α] (m : List (α × β)) (k : α) (v : β) :
    mkeys (mset m k v) = if mhas m k then mkeys m else mkeys m ++ [k] := by
  unfold mset
  by_cases h : mhas m k
  · rw [if_pos h, if_pos h, mkeys_map_set]
  · rw [if_neg h, if_neg h]
    simp [mkeys]

theorem mkeys_mdel {α β : Type} [DecidableEq α] (m : List (α × β)) (k : α) :
    mkeys (mdel m k) = (mkeys m).filter (fun a => decide (a ≠ k)) := by
  induction m with
  | nil => rfl
  | cons p t ih =>
    obtain ⟨a, b⟩ := p
    by_cases hp : a = k
    · subst hp
      simp [mdel, mkeys, List.filter] at ih ⊢
      exact ih
    · simp [mdel, mkeys, List.filter, hp] at ih ⊢
      exact ih

theorem mget_map_set_self {α β : Type} [DecidableEq α] {m : List (α × β)} {k : α} {v : β}
    (h : mhas m k = true) :
    mget (m.map (setEntry k v)) k = some v := by
  induction m with
  | nil => simp [mhas, mget] at h
  | cons p t ih =>
    obtain ⟨a, b⟩ := p
    by_cases hp : a = k
    · subst hp
      rw [List.map_cons, setEntry_self, mget_cons]
      simp
    · have ht : mhas t k = true := by simpa [mhas, mget, hp] using h
      rw [List.map_cons, setEntry_other _ _ hp, mget_cons]
      simp [hp, ih ht]

theorem mget_map_set_ne {α β : Type} [DecidableEq α] {m : List (α × β)} {k j : α} {v : β}
    (h : j ≠ k) :
    mget (m.map (setEntry k v)) j = mget m j := by
  induction m with
  | nil => rfl
  | cons p t ih =>
    obtain ⟨a, b⟩ := p
    by_cases hp : a = k
    · subst hp
      rw [List.map_cons, setEntry_self, mget_cons, mget_cons]
      have hna : ¬a = j := fun hkj => h hkj.symm
      rw [if_neg hna, if_neg hna]
      exact ih
    · rw [List.map_cons, setEntry_other _ _ hp, mget_cons, mget_cons]
      by_cases haj : a = j
      · simp [haj]
      · simp [haj, ih]

theorem mget_append_single_self {α β : Type} [DecidableEq α] {m : List (α × β)} {k : α} {v : β}
    (h : mhas m k = false) : mget (m ++ [(k, v)]) k = some v := by
  induction m with
  | nil => simp [mget]
  | cons p t ih =>
    obtain ⟨a, b⟩ := p
    by_cases hp : a = k
    · subst hp
      simp [mhas, mget] at h
    · have ht : mhas t k = false := by simpa [mhas, mget, hp] using h
      simp [mget, hp, ih ht]

theorem mget_append_single_ne {α β : Type} [DecidableEq α] {m : List (α × β)} {k j : α} {v : β}
    (h : j ≠ k) : mget (m ++ [(k, v)]) j = mget m j := by
  induction m with
  | nil =>
    have hkj : ¬k = j := fun e => h e.symm
    simp [mget, hkj]
  | cons p t ih =>
    obtain ⟨a, b⟩ := p
    by_cases haj : a = j
    · simp [mget, haj]
    · simp [mget, haj, ih]

theorem mget_mset_self {α β : Type} [DecidableEq α] (m : List (α × β)) (k : α) (v : β) :
    mget (mset m k v) k = some v := by
  unfold mset
  by_cases h : mhas m k
  · rw [if_pos h]
    exact mget_map_set_self h
  · rw [if_neg h]
    exact mget_append_single_self (Bool.of_not_eq_true h)

theorem mget_mset_ne {α β : Type} [DecidableEq α] (m : List (α × β)) (k j : α) (v : β)
    (h : j ≠ k) : mget (mset m k v) j = mget m j := by
  unfold mset
  by_cases hm : mhas m k
  · rw [if_pos hm]
    exact mget_map_set_ne h
  · rw [if_neg hm]
    exact mget_append_single_ne h

theorem mget_mdel_ne {α β : Type} [DecidableEq α] (m : List (α × β)) (k j : α)
    (h : j ≠ k) : mget (mdel m k) j = mget m j := by
  induction m with
  | nil => rfl
  | cons p t ih =>
    obtain ⟨a, b⟩ := p
    by_cases hp : a = k
    · subst hp
      simp only [mdel, List.filter, decide_not, ne_eq, decide_True, Bool.not_true]
      simp only [mget, if_neg (fun haj : a = j => h haj.symm)]
      simpa [mdel] using ih
    · simp only [mdel, List.filter] at ih ⊢
      simp only [ne_eq, hp, decide_False, Bool.not_false, mget]
      by_cases haj : a = j
      · simp [haj]
      · simp only [if_neg haj]
        simpa [mdel] using ih

theorem mem_mset {α β : Type} [DecidableEq α] {m : List (α × β)} {k : α} {v : β} {p : α × β}
    (h : p ∈ mset m k v) : p ∈ m ∨ p = (k, v) := by
  unfold mset at h
  by_cases hm : mhas m k
  · rw [if_pos hm] at h
    obtain ⟨q, hq, hpq⟩ := List.mem_map.mp h
    unfold setEntry at hpq
    by_cases hqk : q.1 = k
    · rw [if_pos hqk] at hpq
      exact Or.inr hpq.symm
    · rw [if_neg hqk] at hpq
      exact Or.inl (hpq ▸ hq)
  · rw [if_neg hm] at h
    rcases List.mem_append.mp h with h1 | h2
    · exact Or.inl h1
    · exact Or.inr (List.mem_singleton.mp h2)

theorem mem_mdel {α β : Type} [DecidableEq α] {m : List (α × β)} {k : α} {p : α × β}
    (h : p ∈ mdel m k) : p ∈ m :=
  (List.mem_filter.mp h).1

/-! ### The index-consistency invariant (C1) -/

/-- The three parallel indexes of a room have identical key lists. -/
def roomOk (room : Room) : Prop :=
  mkeys room.clients = mkeys room.roles ∧ mkeys room.roles = mkeys room.names

/-- Every room in the store satisfies `roomOk`. -/
def StateOk (s : ServerState) : Prop :=
  ∀ p ∈ s.rooms, roomOk p.2

instance (r : Room) : Decidable (roomOk r) := by
  unfold roomOk
  exact instDecidableAnd

instance (s : ServerState) : Decidable (StateOk s) := by
  unfold StateOk
  exact List.decidableBAll _ _

theorem roomOk_emptyRoom (roomId : Str) (now : Nat) : roomOk (emptyRoom roomId now) :=
  ⟨rfl, rfl⟩

theorem roomOk_insert3 {room : Room} (h : roomOk room) (cid : CId) (role : Role) (name : Str) :
    roomOk (insert3 room cid role name) := by
  obtain ⟨h1, h2⟩ := h
  constructor
  · show mkeys (mset room.clients cid ()) = mkeys (mset room.roles cid role)
    rw [mkeys_mset, mkeys_mset, mhas_congr h1 cid, h1]
  · show mkeys (mset room.roles cid role) = mkeys (mset room.names cid name)
    rw [mkeys_mset, mkeys_mset, mhas_congr h2 cid, h2]

theorem roomOk_remove3 {room : Room} (h : roomOk room) (cid : CId) :
    roomOk (remove3 room cid) := by
  obtain ⟨h1, h2⟩ := h
  constructor
  · show mkeys (mdel room.clients cid) = mkeys (mdel room.roles cid)
    rw [mkeys_mdel, mkeys_mdel, h1]
  · show mkeys (mdel room.roles cid) = mkeys (mdel room.names cid)
    rw [mkeys_mdel, mkeys_mdel, h2]

theorem stateOk_of_mset {s : ServerState} {rid : Str} {room : Room}
    (h : StateOk s) (hr : roomOk room) :
    ∀ p ∈ mset s.rooms rid room, roomOk p.2 := by
  intro p hp
  rcases mem_mset hp with h1 | h2
  · exact h p h1
  · rw [h2]
    exact hr

theorem stateOk_of_mdel {s : ServerState} {rid : Str}
    (h : StateOk s) : ∀ p ∈ mdel s.rooms rid, roomOk p.2 :=
  fun p hp => h p (mem_mdel hp)

theorem rooms_updateConn (s : ServerState) (cid : CId) (f : Conn → Conn) :
    (updateConn s cid f).rooms = s.rooms := rfl

theorem rooms_closeMany (s : ServerState) (cids : List CId) :
    (closeMany s cids).rooms = s.rooms := by
  induction cids generalizing s with
  | nil => rfl
  | cons c t ih => simp [closeMany, ih, rooms_updateConn]

theorem stateOk_updateConn (s : ServerState) (cid : CId) (f : Conn → Conn)
    (h : StateOk s) : StateOk (updateConn s cid f) := by
  intro p hp
  rw [rooms_updateConn] at hp
  exact h p hp

theorem stateOk_handleClose {s : ServerState} (cid : CId) (h : StateOk s) :
    StateOk (handleClose s cid).1 := by
  cases hg : mget s.conns cid with
  | none =>
    simp only [handleClose, hg]
    exact h
  | some c =>
    cases hreg : c.registered with
    | false =>
      simp only [handleClose, hg, hreg, if_true]
      exact h
    | true =>
      cases hrm : c.roomId with
      | none =>
        simp only [handleClose, hg, hreg, hrm, Bool.true_eq_false, if_false]
        intro p hp
        rw [rooms_updateConn] at hp
        exact h p hp
      | some roomId =>
        cases hroom : mget s.rooms roomId with
        | none =>
          simp only [handleClose, hg, hreg, hrm, Bool.true_eq_false, if_false,
            rooms_updateConn, hroom]
          intro p hp
          rw [rooms_updateConn] at hp
          exact h p hp
        | some room =>
          have hok : roomOk room := h _ (mget_mem hroom)
          by_cases hhost : room.hostId = some cid
          · simp only [handleClose, hg, hreg, hrm, Bool.true_eq_false, if_false,
              rooms_updateConn, hroom, hhost, if_true]
            intro p hp
            simp only [rooms_closeMany, rooms_updateConn] at hp
            exact h p (mem_mdel hp)
          · simp only [handleClose, hg, hreg, hrm, Bool.true_eq_false, if_false,
              rooms_updateConn, hroom, if_neg hhost]
            intro p hp
            simp only [rooms_updateConn] at hp
            by_cases hlen : (remove3 room cid).clients.length = 0
            · rw [if_pos hlen] at hp
              exact h p (mem_mdel hp)
            · rw [if_neg hlen] at hp
              rcases mem_mset hp with h1 | h2
              · exact h p h1
              · rw [h2]
                exact roomOk_remove3 hok cid

theorem handleSignal_state (s : ServerState) (cid : CId) (c : Conn) (rawTo data : Str) :
    (handleSignal s cid c rawTo data).1 = s := by
  unfold handleSignal
  split
  · rfl
  · split
    · rfl
    · dsimp only
      split
      · rfl
      · rfl

theorem handleChat_state (s : ServerState) (cid : CId) (c : Conn) (rawMsg : Str) :
    (handleChat s cid c rawMsg).1 = s := by
  unfold handleChat
  split
  · rfl
  · split
    · rfl
    · rfl

theorem stateOk_joinAsHost {s1 : ServerState} (cid : CId) (roomId name : Str) {room1 : Room}
    (h : StateOk s1) (hok : roomOk room1) :
    StateOk (joinAsHost s1 cid roomId name room1).1 := by
  intro p hp
  simp only [joinAsHost] at hp
  rcases mem_mset hp with h1 | h2
  · exact h p h1
  · rw [h2]
    exact hok

theorem stateOk_joinAsViewer {s1 : ServerState} (cid : CId) (roomId name : Str) {room1 : Room}
    (h : StateOk s1) (hok : roomOk room1) :
    StateOk (joinAsViewer s1 cid roomId name room1).1 := by
  unfold joinAsViewer
  by_cases hon : hostOnline room1 = true
  · simp only [if_pos hon]
    intro p hp
    rcases mem_mset hp with h1 | h2
    · exact h p h1
    · rw [h2]
      exact hok
  · simp only [if_neg hon]
    intro p hp
    simp only [rooms_updateConn] at hp
    rcases mem_mset hp with h1 | h2
    · exact h p h1
    · rw [h2]
      exact roomOk_remove3 hok cid

theorem stateOk_handleJoin {s : ServerState} (cid : CId) (rawRoom rawRole rawName : Str)
    (h : StateOk s) : StateOk (handleJoin s cid rawRoom rawRole rawName).1 := by
  unfold handleJoin
  by_cases hrid : jsTrim rawRoom = []
  · simp only [if_pos hrid]
    exact h
  · simp only [if_neg hrid]
    have hok0 : roomOk (roomBase s (jsTrim rawRoom)) := by
      unfold roomBase
      cases hg : mget s.rooms (jsTrim rawRoom) with
      | some r => exact h _ (mget_mem hg)
      | none => exact roomOk_emptyRoom _ _
    by_cases hr : rawRole = ("host").toList
    · simp only [if_pos hr]
      exact stateOk_joinAsHost _ _ _ (stateOk_updateConn _ _ _ h) (roomOk_insert3 hok0 cid _ _)
    · simp only [if_neg hr]
      exact stateOk_joinAsViewer _ _ _ (stateOk_updateConn _ _ _ h) (roomOk_insert3 hok0 cid _ _)

theorem stateOk_handleMessage {s : ServerState} (cid : CId) (c : Conn) (m : InMsg)
    (h : StateOk s) : StateOk (handleMessage s cid c m).1 := by
  cases m with
  | join rawRoom rawRole rawName => exact stateOk_handleJoin cid rawRoom rawRole rawName h
  | signal rawTo data =>
    show StateOk (handleSignal s cid c rawTo data).1
    rw [handleSignal_state]
    exact h
  | chat rawMsg =>
    show StateOk (handleChat s cid c rawMsg).1
    rw [handleChat_state]
    exact h
  | leave => exact stateOk_handleClose cid h
  | other t => exact h

theorem stateOk_sweepStep {s : ServerState} (cid : CId) (h : StateOk s) :
    StateOk (sweepStep s cid).1 := by
  unfold sweepStep
  cases mget s.conns cid with
  | none => exact h
  | some c =>
    dsimp only
    split
    · exact h
    · split
      · exact stateOk_handleClose cid h
      · intro p hp
        rw [rooms_updateConn] at hp
        exact h p hp

theorem stateOk_sweepFold : ∀ (l : List CId) (s : ServerState) (outs : List Send),
    StateOk s → StateOk (sweepFold s outs l).1 := by
  intro l
  induction l with
  | nil => intro s outs h; exact h
  | cons a t ih =>
    intro s outs h
    exact ih _ _ (stateOk_sweepStep a h)

/-- C1: every operation — join as host, join as viewer (accepted or rolled
back), explicit leave, connection close, liveness sweep — preserves the
invariant that the key sets of a room's connection-handle, role and
display-name indexes coincide, for every room in the store. -/
theorem c1_index_consistency (s : ServerState) (e : Event) (h : StateOk s) :
    StateOk (step s e).1 := by
  cases e with
  | connect cid =>
    by_cases hg : (mget s.conns cid).isSome = true
    · simp only [step, if_pos hg]
      exact h
    · simp only [step, if_neg hg]
      intro p hp
      exact h p hp
  | message cid m =>
    cases hg : mget s.conns cid with
    | none =>
      simp only [step, hg]
      exact h
    | some c =>
      cases hreg : c.registered with
      | true =>
        simp only [step, hg, hreg, if_true]
        exact stateOk_handleMessage cid c m h
      | false =>
        simp only [step, hg, hreg, Bool.false_eq_true, if_false]
        exact h
  | close cid =>
    simp only [step]
    exact stateOk_handleClose cid h
  | pong cid =>
    simp only [step]
    exact stateOk_updateConn _ _ _ h
  | sweep =>
    simp only [step, probeAndReap]
    exact stateOk_sweepFold _ _ _ h

/-! ### Send lemmas -/

theorem mem_safeSend {s : ServerState} {cid : CId} {msg : OutMsg} {p : Send}
    (hp : p ∈ safeSend s cid msg) : p = (cid, msg) := by
  unfold safeSend at hp
  split at hp
  · exact List.mem_singleton.mp hp
  · cases hp

theorem safeSend_open {s : ServerState} {cid : CId} (msg : OutMsg)
    (h : connOpen s cid = true) : safeSend s cid msg = [(cid, msg)] := by
  unfold safeSend
  rw [if_pos h]

theorem mem_sendAll {s : ServerState} {cids : List CId} {msg : OutMsg} {p : Send}
    (hp : p ∈ sendAll s cids msg) : p.1 ∈ cids ∧ p.2 = msg := by
  induction cids with
  | nil => cases hp
  | cons c t ih =>
    simp only [sendAll] at hp
    rcases List.mem_append.mp hp with h1 | h2
    · have he := mem_safeSend h1
      rw [he]
      exact ⟨List.mem_cons_self _ _, rfl⟩
    · obtain ⟨a, b⟩ := ih h2
      exact ⟨List.mem_cons_of_mem _ a, b⟩

theorem sendAll_mem_of {s : ServerState} {cids : List CId} {m : CId} (msg : OutMsg)
    (hm : m ∈ cids) (ho : connOpen s m = true) : (m, msg) ∈ sendAll s cids msg := by
  induction cids with
  | nil => cases hm
  | cons c t ih =>
    simp only [sendAll]
    rcases List.mem_cons.mp hm with he | ht
    · subst he
      apply List.mem_append_left
      rw [safeSend_open msg ho]
      exact List.mem_singleton_self _
    · exact List.mem_append_right _ (ih ht)

/-! ### Connection-table lemmas -/

theorem updEntry_self {α β : Type} [DecidableEq α] (k : α) (g : β → β) (b : β) :
    updEntry k g (k, b) = (k, g b) := by
  unfold updEntry
  rw [if_pos rfl]

theorem updEntry_other {α β : Type} [DecidableEq α] {k a : α} (g : β → β) (b : β)
    (h : ¬a = k) : updEntry k g (a, b) = (a, b) := by
  unfold updEntry
  rw [if_neg h]

theorem mget_map_upd_self {α β : Type} [DecidableEq α] (m : List (α × β)) (k : α) (g : β → β) :
    mget (m.map (updEntry k g)) k = (mget m k).map g := by
  induction m with
  | nil => rfl
  | cons p t ih =>
    obtain ⟨a, b⟩ := p
    by_cases hp : a = k
    · subst hp
      rw [List.map_cons, updEntry_self, mget_cons, mget_cons]
      simp
    · rw [List.map_cons, updEntry_other _ _ hp, mget_cons, mget_cons]
      simp only [if_neg hp]
      exact ih

theorem mget_map_upd_ne {α β : Type} [DecidableEq α] (m : List (α × β)) {k j : α} (g : β → β)
    (h : j ≠ k) : mget (m.map (updEntry k g)) j = mget m j := by
  induction m with
  | nil => rfl
  | cons p t ih =>
    obtain ⟨a, b⟩ := p
    by_cases hp : a = k
    · subst hp
      rw [List.map_cons, updEntry_self, mget_cons, mget_cons]
      have hna : ¬a = j := fun e => h e.symm
      rw [if_neg hna, if_neg hna]
      exact ih
    · rw [List.map_cons, updEntry_other _ _ hp, mget_cons, mget_cons]
      by_cases haj : a = j
      · rw [if_pos haj, if_pos haj]
      · rw [if_neg haj, if_neg haj]
        exact ih

theorem mget_updateConn_self (s : ServerState) (cid : CId) (f : Conn → Conn) :
    mget (updateConn s cid f).conns cid = (mget s.conns cid).map f :=
  mget_map_upd_self s.conns cid f

theorem mget_updateConn_ne (s : ServerState) {cid j : CId} (f : Conn → Conn)
    (h : j ≠ cid) : mget (updateConn s cid f).conns j = mget s.conns j :=
  mget_map_upd_ne s.conns f h

/-- Reduce a message event to the handler, for a registered connection. -/
theorem step_message_eq {s : ServerState} {cid : CId} {c : Conn} (m : InMsg)
    (hg : mget s.conns cid = some c) (hreg : c.registered = true) :
    step s (.message cid m) = handleMessage s cid c m := by
  simp only [step, hg, hreg, if_true]

/-! ### Concrete fixtures for witnesses -/

def demoRoom : Room :=
  { roomId := ("r").toList, hostId := some (("h").toList),
    clients := [((("h").toList), ()), ((("v").toList), ())],
    roles := [((("h").toList), Role.host), ((("v").toList), Role.viewer)],
    names := [((("h").toList), ("Al").toList), ((("v").toList), ("Viewer").toList)],
    createdAt := 5 }

def demoConnH : Conn :=
  { roomId := some (("r").toList), role := some Role.host,
    isAlive := true, open_ := true, registered := true }

def demoConnV : Conn :=
  { roomId := some (("r").toList), role := some Role.viewer,
    isAlive := true, open_ := true, registered := true }

def demoState : ServerState :=
  { rooms := [((("r").toList), demoRoom)],
    conns := [((("h").toList), demoConnH), ((("v").toList), demoConnV)],
    now := 5 }

/-- Witness for C1 at a concrete state: one registered connection joining a
fresh room as host. -/
theorem c1_index_consistency_witness :
    StateOk { rooms := [], conns := [(('h' :: []), newConn)], now := 0 } ∧
    StateOk (step { rooms := [], conns := [(('h' :: []), newConn)], now := 0 }
      (.message ('h' :: []) (.join ('r' :: []) (("host").toList) []))).1 :=
  ⟨by decide, c1_index_consistency _ _ (by decide)⟩

/-- C7: a parseable message whose type is not join, signal, chat or leave
produces only an error reply to the sender: the state (room store, rooms,
host identifiers, connection table) is unchanged, every emitted send
targets the sender and is an error, and for a registered open sender the
output is exactly the one error reply. -/
theorem c7_unknown_type (s : ServerState) (cid : CId) (t : Str) :
    (step s (.message cid (.other t))).1 = s ∧
    (∀ p ∈ (step s (.message cid (.other t))).2,
      p.1 = cid ∧ ∃ emsg, p.2 = OutMsg.error emsg) ∧
    (∀ c, mget s.conns cid = some c → c.registered = true → connOpen s cid = true →
      (step s (.message cid (.other t))).2 =
        [(cid, OutMsg.error ((("Unknown message type: ").toList) ++ t))]) := by
  cases hg : mget s.conns cid with
  | none =>
    simp only [step, hg]
    refine ⟨by trivial, ?_, ?_⟩
    · intro p hp
      cases hp
    · intro c hc
      cases hc
  | some c =>
    cases hreg : c.registered with
    | false =>
      simp only [step, hg, hreg, Bool.false_eq_true, if_false]
      refine ⟨by trivial, ?_, ?_⟩
      · intro p hp
        cases hp
      · intro c' hc' hr' ho
        cases Option.some.inj hc'
        simp [hreg] at hr'
    | true =>
      simp only [step, hg, hreg, if_true, handleMessage]
      refine ⟨by trivial, ?_, ?_⟩
      · intro p hp
        have he := mem_safeSend hp
        rw [he]
        exact ⟨rfl, _, rfl⟩
      · intro c' _ _ ho
        rw [safeSend_open _ ho]

/-- Witness for C7: concrete unknown-type message from the registered open
viewer connection. -/
theorem c7_unknown_type_witness :
    (step demoState (.message (("v").toList) (.other (("nope").toList)))).2 =
      [((("v").toList), OutMsg.error ((("Unknown message type: ").toList) ++ (("nope").toList)))] :=
  (c7_unknown_type demoState (("v").toList) (("nope").toList)).2.2 demoConnV (by rfl) (by rfl)
    (by rfl)

/-- C5: a signal from a joined sender naming a target that is a member of
the sender's room is relayed to that target only, wrapped with the
sender's identifier and the data payload untouched; an empty or
non-member target yields an error reply to the sender and no delivery,
and in both cases the server state is unchanged. -/
theorem c5_signal_relay (s : ServerState) (cid : CId) (c : Conn) (rawTo data roomId : Str)
    (room : Room)
    (hg : mget s.conns cid = some c) (hreg : c.registered = true)
    (hrm : c.roomId = some roomId) (hroom : mget s.rooms roomId = some room) :
    (¬(jsTrim rawTo = [] ∨ mhas room.clients (jsTrim rawTo) = false) →
      connOpen s (jsTrim rawTo) = true →
      step s (.message cid (.signal rawTo data)) =
        (s, [(jsTrim rawTo, OutMsg.signal roomId cid data)])) ∧
    ((jsTrim rawTo = [] ∨ mhas room.clients (jsTrim rawTo) = false) →
      (step s (.message cid (.signal rawTo data))).1 = s ∧
      ∀ p ∈ (step s (.message cid (.signal rawTo data))).2,
        p = (cid, OutMsg.error (("Invalid 'to' target").toList))) := by
  rw [step_message_eq _ hg hreg]
  constructor
  · intro hcond hopen
    simp only [handleMessage, handleSignal, hrm, hroom]
    rw [if_neg hcond, safeSend_open _ hopen]
  · intro hcond
    simp only [handleMessage, handleSignal, hrm, hroom]
    rw [if_pos hcond]
    exact ⟨rfl, fun p hp => mem_safeSend hp⟩

/-- Witness for C5: the viewer signals the host in the demo room; the host
receives the wrapped payload and nothing else is emitted. -/
theorem c5_signal_relay_witness :
    step demoState (.message (("v").toList) (.signal ("h").toList ("sdp").toList)) =
      (demoState, [((("h").toList), OutMsg.signal (("r").toList) (("v").toList) (("sdp").toList))]) :=
  (c5_signal_relay demoState (("v").toList) demoConnV (("h").toList) (("sdp").toList)
      (("r").toList) demoRoom (by rfl) (by rfl) (by rfl) (by rfl)).1 (by decide) (by rfl)

/-- C6: a chat message from a joined sender is truncated to at most 2000
characters (never rejected), and broadcast to every member of the
sender's room — the sender included — carrying the sender's identifier,
display name, and the server clock; every emitted send is that chat
message aimed at a room member. -/
theorem c6_chat_broadcast (s : ServerState) (cid : CId) (c : Conn) (rawMsg roomId : Str)
    (room : Room)
    (hg : mget s.conns cid = some c) (hreg : c.registered = true)
    (hrm : c.roomId = some roomId) (hroom : mget s.rooms roomId = some room) :
    (step s (.message cid (.chat rawMsg))).1 = s ∧
    (∀ m ∈ mkeys room.clients, connOpen s m = true →
      (m, OutMsg.chat roomId cid ((mget room.names cid).getD (("User").toList))
        (rawMsg.take 2000) s.now) ∈ (step s (.message cid (.chat rawMsg))).2) ∧
    (∀ p ∈ (step s (.message cid (.chat rawMsg))).2,
      p.1 ∈ mkeys room.clients ∧
      p.2 = OutMsg.chat roomId cid ((mget room.names cid).getD (("User").toList))
        (rawMsg.take 2000) s.now) ∧
    (rawMsg.take 2000).length ≤ 2000 := by
  rw [step_message_eq _ hg hreg]
  simp only [handleMessage, handleChat, hrm, hroom]
  refine ⟨by trivial, ?_, ?_, ?_⟩
  · intro m hm ho
    exact sendAll_mem_of _ hm ho
  · intro p hp
    exact mem_sendAll hp
  · rw [List.length_take]
    exact min_le_left _ _

/-- Witness for C6: the viewer chats "hi"; both members, the sender
included, receive the chat with the sender's name and the clock value. -/
theorem c6_chat_broadcast_witness :
    ((("v").toList), OutMsg.chat (("r").toList) (("v").toList) (("Viewer").toList)
        (("hi").toList) 5) ∈
      (step demoState (.message (("v").toList) (.chat ("hi").toList))).2 :=
  (c6_chat_broadcast demoState (("v").toList) demoConnV (("hi").toList) (("r").toList)
      demoRoom (by rfl) (by rfl) (by rfl) (by rfl)).2.1 (("v").toList) (by decide) (by rfl)

/-! ### Roster lemmas (C10) -/

theorem mem_viewersOf {roles : List (CId × Role)} {names : List (CId × Str)} {d : Descriptor}
    (hd : d ∈ viewersOf roles names) : (d.id, Role.viewer) ∈ roles := by
  induction roles with
  | nil => cases hd
  | cons p t ih =>
    obtain ⟨id, r⟩ := p
    simp only [viewersOf] at hd
    by_cases hr : r = Role.viewer
    · rw [if_pos hr] at hd
      rcases List.mem_append.mp hd with h1 | h2
      · rw [List.mem_singleton.mp h1]
        rw [hr]
        exact List.mem_cons_self _ _
      · exact List.mem_cons_of_mem _ (ih h2)
    · rw [if_neg hr] at hd
      rw [List.nil_append] at hd
      exact List.mem_cons_of_mem _ (ih hd)

theorem viewersOf_mem_of {roles : List (CId × Role)} (names : List (CId × Str)) {id : CId}
    (h : (id, Role.viewer) ∈ roles) : ∃ d ∈ viewersOf roles names, d.id = id := by
  induction roles with
  | nil => cases h
  | cons p t ih =>
    obtain ⟨a, r⟩ := p
    simp only [viewersOf]
    rcases List.mem_cons.mp h with he | ht
    · injection he with ha hr
      subst ha
      subst hr
      refine ⟨⟨id, (mget names id).getD (("Viewer").toList)⟩, ?_, rfl⟩
      simp
    · obtain ⟨d, hd, hid⟩ := ih ht
      refine ⟨d, ?_, hid⟩
      exact List.mem_append_right _ hd

/-- C10: the computed roster's viewers are exactly the members whose
role-index value is viewer, and the host descriptor is taken from the
room's host identifier; hence a superseded former host — role host but
identifier different from `hostId` — appears in neither the host field
nor the viewers list. -/
theorem c10_roster_superseded_host (room : Room) (cid : CId)
    (hrole : ∀ v, (cid, v) ∈ room.roles → v = Role.host)
    (hne : room.hostId ≠ some cid) :
    (∀ d ∈ (roster room).viewers, d.id ≠ cid) ∧
    (∀ d, (roster room).host = some d → d.id ≠ cid) ∧
    (∀ d ∈ (roster room).viewers, (d.id, Role.viewer) ∈ room.roles) ∧
    (∀ id, (id, Role.viewer) ∈ room.roles → ∃ d ∈ (roster room).viewers, d.id = id) ∧
    (∀ h, room.hostId = some h → ∃ d, (roster room).host = some d ∧ d.id = h) := by
  refine ⟨?_, ?_, ?_, ?_, ?_⟩
  · intro d hd heq
    have hv := mem_viewersOf hd
    rw [heq] at hv
    have := hrole Role.viewer hv
    cases this
  · intro d hd heq
    cases hh : room.hostId with
    | none =>
      simp only [roster, hh] at hd
      cases hd
    | some h =>
      simp only [roster, hh] at hd
      have hdd : ({ id := h, name := (mget room.names h).getD (("Host").toList) } : Descriptor) = d :=
        Option.some.inj hd
      have hid : h = cid := by
        rw [hdd.symm] at heq
        exact heq
      rw [hid] at hh
      exact hne hh
  · intro d hd
    exact mem_viewersOf hd
  · intro id hid
    exact viewersOf_mem_of room.names hid
  · intro h hh
    simp only [roster, hh]
    exact ⟨_, rfl, rfl⟩

/-- A room with a superseded former host: `h` still has role host in the
role index, but `hostId` now names `h2`. -/
def demoRoom2 : Room :=
  { roomId := ("r").toList, hostId := some (("h2").toList),
    clients := [((("h").toList), ()), ((("h2").toList), ()), ((("v").toList), ())],
    roles := [((("h").toList), Role.host), ((("h2").toList), Role.host),
      ((("v").toList), Role.viewer)],
    names := [((("h").toList), ("Al").toList), ((("h2").toList), ("Bo").toList),
      ((("v").toList), ("Cy").toList)],
    createdAt := 5 }

/-- Witness for C10: in `demoRoom2` the descriptor of viewer `v` is in the
roster and is not the superseded host `h`. -/
theorem c10_roster_superseded_host_witness :
    ((⟨("v").toList, ("Cy").toList⟩ : Descriptor) ∈ (roster demoRoom2).viewers) ∧
    (⟨("v").toList, ("Cy").toList⟩ : Descriptor).id ≠ ("h").toList :=
  ⟨by decide,
   (c10_roster_superseded_host demoRoom2 (("h").toList) (by decide) (by decide)).1
     ⟨("v").toList, ("Cy").toList⟩ (by decide)⟩

/-! ### Join lemmas (C3, C9) -/

theorem mem_hostReadySends {s : ServerState} {room : Room} {roles : List (CId × Role)}
    {hostCid : CId} {p : Send} (hp : p ∈ hostReadySends s room roles hostCid) :
    p.2 = OutMsg.hostReady hostCid := by
  induction roles with
  | nil => cases hp
  | cons q t ih =>
    obtain ⟨id, r⟩ := q
    simp only [hostReadySends] at hp
    rcases List.mem_append.mp hp with h1 | h2
    · split at h1
      · split at h1
        · rw [mem_safeSend h1]
        · cases h1
      · cases h1
    · exact ih h2

theorem joinAsHost_no_error {s1 : ServerState} {cid : CId} {roomId name : Str} {room1 : Room}
    {p : Send} (hp : p ∈ (joinAsHost s1 cid roomId name room1).2) :
    ∀ emsg, p.2 ≠ OutMsg.error emsg := by
  simp only [joinAsHost] at hp
  rcases List.mem_append.mp hp with hp1 | hp2
  · rcases List.mem_append.mp hp1 with hpa | hpb
    · rw [mem_safeSend hpa]
      intro emsg h
      cases h
    · rw [(mem_sendAll hpb).2]
      intro emsg h
      cases h
  · rw [mem_hostReadySends hp2]
    intro emsg h
    cases h

theorem joinAsViewer_success_no_error {s1 : ServerState} {cid : CId} {roomId name : Str}
    {room1 : Room} {p : Send} (hon : hostOnline room1 = true)
    (hp : p ∈ (joinAsViewer s1 cid roomId name room1).2) :
    ∀ emsg, p.2 ≠ OutMsg.error emsg := by
  simp only [joinAsViewer, if_pos hon] at hp
  rcases List.mem_append.mp hp with hp1 | hp2
  · rcases List.mem_append.mp hp1 with hpa | hpb
    · rw [mem_safeSend hpa]
      intro emsg h
      cases h
    · rw [mem_safeSend hpb]
      intro emsg h
      cases h
  · rw [(mem_sendAll hp2).2]
    intro emsg h
    cases h

/-- C3: a host join to a non-empty room identifier unconditionally
overwrites the room's host identifier with the joiner's identifier,
leaves every other member's entries in the three indexes untouched, and
the host identifier names at most one connection. -/
theorem c3_host_takeover (s : ServerState) (cid : CId) (c : Conn) (rawRoom rawName : Str)
    (hg : mget s.conns cid = some c) (hreg : c.registered = true)
    (hrid : jsTrim rawRoom ≠ []) :
    ∃ room', mget (step s (.message cid
        (.join rawRoom (("host").toList) rawName))).1.rooms (jsTrim rawRoom) = some room' ∧
      room'.hostId = some cid ∧
      (∀ m, m ≠ cid →
        mget room'.clients m = mget (roomBase s (jsTrim rawRoom)).clients m ∧
        mget room'.roles m = mget (roomBase s (jsTrim rawRoom)).roles m ∧
        mget room'.names m = mget (roomBase s (jsTrim rawRoom)).names m) ∧
      (∀ a b, room'.hostId = some a → room'.hostId = some b → a = b) := by
  rw [step_message_eq _ hg hreg]
  simp only [handleMessage, handleJoin, if_neg hrid, joinAsHost, rooms_updateConn]
  refine ⟨_, mget_mset_self _ _ _, rfl, ?_, ?_⟩
  · intro m hm
    exact ⟨mget_mset_ne _ _ _ _ hm, mget_mset_ne _ _ _ _ hm, mget_mset_ne _ _ _ _ hm⟩
  · intro a b ha hb
    rw [ha] at hb
    exact Option.some.inj hb

/-- Witness for C3: the viewer `v` claims host of the demo room; the
stored room afterwards has `hostId = v`. -/
theorem c3_host_takeover_witness :
    ∃ room', mget (step demoState (.message (("v").toList)
        (.join (("r").toList) (("host").toList) (("Bo").toList)))).1.rooms (("r").toList)
      = some room' ∧ room'.hostId = some (("v").toList) := by
  obtain ⟨room', h1, h2, _, _⟩ :=
    c3_host_takeover demoState (("v").toList) demoConnV (("r").toList) (("Bo").toList)
      (by rfl) (by rfl) (by decide)
  exact ⟨room', h1, h2⟩

/-- C9: the join handler never rejects a sender for being already joined —
an error reply arises only for an empty trimmed room identifier or a
viewer join whose target room has no online host — so a second join (here
as host, to a different room) succeeds: it inserts the connection into
the new room's three indexes and reassigns the connection's room and role
fields, while the previously joined room's entry is left untouched. -/
theorem c9_second_join (s : ServerState) (cid : CId) (c : Conn) (rawRoom rawName oldRoom : Str)
    (hg : mget s.conns cid = some c) (hreg : c.registered = true)
    (_hold : c.roomId = some oldRoom)
    (hrid : jsTrim rawRoom ≠ []) (hne : jsTrim rawRoom ≠ oldRoom) :
    (∀ p ∈ (step s (.message cid (.join rawRoom (("host").toList) rawName))).2,
      ∀ emsg, p.2 ≠ OutMsg.error emsg) ∧
    mget (step s (.message cid (.join rawRoom (("host").toList) rawName))).1.conns cid =
      some { c with roomId := some (jsTrim rawRoom), role := some Role.host } ∧
    (∃ room', mget (step s (.message cid
        (.join rawRoom (("host").toList) rawName))).1.rooms (jsTrim rawRoom) = some room' ∧
      mget room'.clients cid = some () ∧
      mget room'.roles cid = some Role.host ∧
      mget room'.names cid = some (jsName rawName Role.host)) ∧
    mget (step s (.message cid
      (.join rawRoom (("host").toList) rawName))).1.rooms oldRoom = mget s.rooms oldRoom ∧
    (∀ rawRole2, ∀ p ∈ (step s (.message cid (.join rawRoom rawRole2 rawName))).2,
      (∃ emsg, p.2 = OutMsg.error emsg) →
      rawRole2 ≠ ("host").toList ∧
      hostOnline (insert3 (roomBase s (jsTrim rawRoom)) cid Role.viewer
        (jsName rawName Role.viewer)) = false) := by
  rw [step_message_eq _ hg hreg]
  refine ⟨?_, ?_, ?_, ?_, ?_⟩
  · simp only [handleMessage, handleJoin, if_neg hrid, if_true]
    intro p hp
    exact joinAsHost_no_error hp
  · simp only [handleMessage, handleJoin, if_neg hrid, if_true, joinAsHost]
    rw [mget_updateConn_self, hg]
    rfl
  · simp only [handleMessage, handleJoin, if_neg hrid, if_true, joinAsHost, rooms_updateConn]
    exact ⟨_, mget_mset_self _ _ _, mget_mset_self _ _ _, mget_mset_self _ _ _,
      mget_mset_self _ _ _⟩
  · simp only [handleMessage, handleJoin, if_neg hrid, if_true, joinAsHost, rooms_updateConn]
    exact mget_mset_ne _ _ _ _ (fun e => hne e.symm)
  · intro rawRole2
    rw [step_message_eq _ hg hreg]
    by_cases hr2 : rawRole2 = ("host").toList
    · subst hr2
      simp only [handleMessage, handleJoin, if_neg hrid]
      intro p hp hperr
      obtain ⟨emsg, he⟩ := hperr
      exact absurd he (joinAsHost_no_error hp emsg)
    · simp only [handleMessage, handleJoin, if_neg hrid, if_neg hr2]
      intro p hp hperr
      by_cases hon : hostOnline (insert3 (roomBase s (jsTrim rawRoom)) cid Role.viewer
          (jsName rawName Role.viewer)) = true
      · obtain ⟨emsg, he⟩ := hperr
        exact absurd he (joinAsViewer_success_no_error hon hp emsg)
      · exact ⟨hr2, Bool.of_not_eq_true hon⟩

/-- Witness for C9: the already-joined viewer `v` joins a fresh room `q`
as host; its membership entry for the old room `r` is unchanged. -/
theorem c9_second_join_witness :
    mget (step demoState (.message (("v").toList)
      (.join (("q").toList) (("host").toList) []))).1.rooms (("r").toList)
      = mget demoState.rooms (("r").toList) :=
  (c9_second_join demoState (("v").toList) demoConnV (("q").toList) [] (("r").toList)
    (by rfl) (by rfl) (by rfl) (by decide) (by decide)).2.2.2.1

/-! ### Viewer-join rollback (C2) -/

theorem mdel_mset_fresh {α β : Type} [DecidableEq α] (m : List (α × β)) (k : α) (v : β)
    (h : k ∉ mkeys m) : mdel (mset m k v) k = m := by
  have hh : ¬mhas m k = true := fun hx => h (mhas_iff.mp hx)
  unfold mset
  rw [if_neg hh]
  unfold mdel
  rw [List.filter_append]
  have h1 : List.filter (fun p => decide (p.1 ≠ k)) [(k, v)] = [] := by simp
  rw [h1, List.append_nil]
  apply List.filter_eq_self.mpr
  intro x hx
  have hxm : x.1 ∈ mkeys m := List.mem_map.mpr ⟨x, hx, rfl⟩
  simp only [ne_eq, decide_eq_true_eq]
  exact fun e => h (e ▸ hxm)

theorem remove3_insert3_fresh {room : Room} {cid : CId} (role : Role) (name : Str)
    (h1 : cid ∉ mkeys room.clients) (h2 : cid ∉ mkeys room.roles)
    (h3 : cid ∉ mkeys room.names) :
    remove3 (insert3 room cid role name) cid = room := by
  simp only [remove3, insert3]
  rw [mdel_mset_fresh _ _ _ h1, mdel_mset_fresh _ _ _ h2, mdel_mset_fresh _ _ _ h3]

/-- A single fresh connection and an empty room store. -/
def lonelyState : ServerState :=
  { rooms := [], conns := [((("v").toList), newConn)], now := 0 }

/-- Counterexample to C2 as stated: a viewer join naming a previously
unseen room identifier is rejected and rolled back, yet the room store is
modified — the lazily created empty room remains in it. -/
theorem c2_store_modified_cex :
    lonelyState.rooms = [] ∧
    (step lonelyState (.message (("v").toList)
      (.join (("q").toList) (("viewer").toList) []))).2 =
      [((("v").toList), OutMsg.error (("Room exists but host is not online yet.").toList))] ∧
    (step lonelyState (.message (("v").toList)
      (.join (("q").toList) (("viewer").toList) []))).1.rooms =
      [((("q").toList), emptyRoom (("q").toList) 0)] := by
  decide

/-- C2 (amended): a viewer join to a room whose host identifier is unset
or does not resolve into the room's connection index is rejected with an
error reply to the sender only; the insertion into the three indexes is
rolled back, so the named room's membership and every other room are
exactly as before, and the sender's room/role fields are reset — but for
a previously unseen identifier the lazily created empty room remains in
the store. -/
theorem c2_viewer_join_rollback (s : ServerState) (cid : CId) (c : Conn)
    (rawRoom rawRole rawName : Str)
    (hg : mget s.conns cid = some c) (hreg : c.registered = true)
    (hrid : jsTrim rawRoom ≠ [])
    (hr2 : rawRole ≠ ("host").toList)
    (hon : hostOnline (insert3 (roomBase s (jsTrim rawRoom)) cid Role.viewer
      (jsName rawName Role.viewer)) = false)
    (hcl : cid ∉ mkeys (roomBase s (jsTrim rawRoom)).clients)
    (hro : cid ∉ mkeys (roomBase s (jsTrim rawRoom)).roles)
    (hna : cid ∉ mkeys (roomBase s (jsTrim rawRoom)).names) :
    (∀ p ∈ (step s (.message cid (.join rawRoom rawRole rawName))).2,
      p = (cid, OutMsg.error (("Room exists but host is not online yet.").toList))) ∧
    mget (step s (.message cid (.join rawRoom rawRole rawName))).1.rooms (jsTrim rawRoom) =
      some (roomBase s (jsTrim rawRoom)) ∧
    (∀ q, q ≠ jsTrim rawRoom →
      mget (step s (.message cid (.join rawRoom rawRole rawName))).1.rooms q =
        mget s.rooms q) ∧
    mget (step s (.message cid (.join rawRoom rawRole rawName))).1.conns cid =
      some { c with roomId := none, role := none } := by
  rw [step_message_eq _ hg hreg]
  simp only [handleMessage, handleJoin, if_neg hrid, if_neg hr2, joinAsViewer, hon,
    Bool.false_eq_true, if_false, rooms_updateConn]
  refine ⟨?_, ?_, ?_, ?_⟩
  · intro p hp
    exact mem_safeSend hp
  · rw [mget_mset_self]
    rw [remove3_insert3_fresh Role.viewer (jsName rawName Role.viewer) hcl hro hna]
  · intro q hq
    exact mget_mset_ne _ _ _ _ hq
  · rw [mget_updateConn_self]
    conv =>
      lhs
      rw [mget_updateConn_self]
    rw [hg]
    rfl

/-- Witness for the amended C2: the unseen room `q` keeps an empty room
object in the store after the rejected viewer join. -/
theorem c2_viewer_join_rollback_witness :
    mget (step lonelyState (.message (("v").toList)
      (.join (("q").toList) (("viewer").toList) []))).1.rooms (("q").toList)
      = some (roomBase lonelyState (("q").toList)) :=
  (c2_viewer_join_rollback lonelyState (("v").toList) newConn (("q").toList)
    (("viewer").toList) [] (by rfl) (by rfl) (by decide) (by decide) (by decide)
    (by decide) (by decide) (by decide)).2.1

/-! ### Close/teardown lemmas (C4) -/

theorem mget_mdel_self {α β : Type} [DecidableEq α] (m : List (α × β)) (k : α) :
    mget (mdel m k) k = none := by
  cases hx : mget (mdel m k) k with
  | none => rfl
  | some v =>
    have h1 : (mget (mdel m k) k).isSome = true := by rw [hx]; rfl
    have h2 : k ∈ mkeys (mdel m k) := mget_isSome_iff.mp h1
    rw [mkeys_mdel] at h2
    have h3 := List.of_mem_filter h2
    simp at h3

theorem mem_mkeys_mdel_ne {α β : Type} [DecidableEq α] {m : List (α × β)} {k j : α}
    (h : j ∈ mkeys (mdel m k)) : j ≠ k := by
  rw [mkeys_mdel] at h
  have := List.of_mem_filter h
  simpa using this

theorem connOpen_updateConn_self_closed (s : ServerState) (c : CId) (f : Conn → Conn)
    (hf : ∀ cc, (f cc).open_ = false) :
    connOpen (updateConn s c f) c = false := by
  unfold connOpen
  rw [mget_updateConn_self]
  cases mget s.conns c with
  | none => rfl
  | some cc => exact hf cc

theorem connOpen_updateConn_ne (s : ServerState) {c m : CId} (f : Conn → Conn)
    (h : m ≠ c) : connOpen (updateConn s c f) m = connOpen s m := by
  unfold connOpen
  rw [mget_updateConn_ne _ _ h]

theorem connOpen_closeMany_false {cids : List CId} : ∀ {s : ServerState} {m : CId},
    connOpen s m = false → connOpen (closeMany s cids) m = false := by
  induction cids with
  | nil => intro s m h; exact h
  | cons c t ih =>
    intro s m h
    simp only [closeMany]
    apply ih
    by_cases hmc : m = c
    · subst hmc
      exact connOpen_updateConn_self_closed s m _ (fun cc => rfl)
    · rw [connOpen_updateConn_ne s _ hmc]
      exact h

theorem connOpen_closeMany_mem {cids : List CId} : ∀ {s : ServerState} {m : CId},
    m ∈ cids → connOpen (closeMany s cids) m = false := by
  induction cids with
  | nil => intro s m h; cases h
  | cons c t ih =>
    intro s m hm
    simp only [closeMany]
    rcases List.mem_cons.mp hm with he | ht
    · subst he
      exact connOpen_closeMany_false (connOpen_updateConn_self_closed s m _ (fun cc => rfl))
    · exact ih ht

/-- C4: when the connection whose identifier equals a room's host
identifier closes, every remaining room member that is still writable is
sent the `host_left` notice (and nothing else is emitted), every
remaining member's transport is closed, and the room identifier is
afterwards absent from the store — unconditionally. -/
theorem c4_host_departure_cascade (s : ServerState) (cid : CId) (c : Conn) (rid : Str)
    (room : Room)
    (hg : mget s.conns cid = some c) (hreg : c.registered = true)
    (hrm : c.roomId = some rid) (hroom : mget s.rooms rid = some room)
    (hhost : room.hostId = some cid) :
    mget (step s (.close cid)).1.rooms rid = none ∧
    (∀ m ∈ mkeys (remove3 room cid).clients, connOpen s m = true →
      (m, OutMsg.hostLeft rid (("Host left. Room closed.").toList)) ∈ (step s (.close cid)).2) ∧
    (∀ p ∈ (step s (.close cid)).2,
      p.1 ∈ mkeys (remove3 room cid).clients ∧
      p.2 = OutMsg.hostLeft rid (("Host left. Room closed.").toList)) ∧
    (∀ m ∈ mkeys (remove3 room cid).clients, connOpen (step s (.close cid)).1 m = false) := by
  simp only [step, handleClose, hg, hreg, Bool.true_eq_false, if_false, hrm,
    rooms_updateConn, hroom, hhost, if_true, rooms_closeMany]
  refine ⟨?_, ?_, ?_, ?_⟩
  · exact mget_mdel_self _ _
  · intro m hm ho
    have hmc : m ≠ cid := mem_mkeys_mdel_ne hm
    apply sendAll_mem_of _ hm
    rw [connOpen_updateConn_ne s _ hmc]
    exact ho
  · intro p hp
    exact mem_sendAll hp
  · intro m hm
    show connOpen (closeMany _ _) m = false
    exact connOpen_closeMany_mem hm

/-- Witness for C4: the host of the demo room closes; the viewer receives
`host_left`. -/
theorem c4_host_departure_cascade_witness :
    ((("v").toList), OutMsg.hostLeft (("r").toList) (("Host left. Room closed.").toList)) ∈
      (step demoState (.close (("h").toList))).2 :=
  (c4_host_departure_cascade demoState (("h").toList) demoConnH (("r").toList) demoRoom
    (by rfl) (by rfl) (by rfl) (by rfl) (by rfl)).2.1 (("v").toList) (by decide) (by rfl)

/-! ### Liveness-sweep lemmas (C8) -/

/-- The sweep-relevant per-connection data other than the transport's open
flag: room, role, liveness flag, registration. -/
def connCore (c : Conn) : Option Str × Option Role × Bool × Bool :=
  (c.roomId, c.role, c.isAlive, c.registered)

/-- The member key list of the room stored at `rid`. -/
def roomClients (rooms : List (Str × Room)) (rid : Str) : List CId :=
  match mget rooms rid with
  | some r => mkeys r.clients
  | none => []

/-- The connection's entry is deregistered and its transport closed. -/
def connDown (s : ServerState) (cid : CId) : Prop :=
  ∀ cc, mget s.conns cid = some cc → cc.registered = false ∧ cc.open_ = false

theorem mget_core_updateConn (s : ServerState) (x : CId) (f : Conn → Conn)
    (hf : ∀ cc, connCore (f cc) = connCore cc) (cid : CId) :
    (mget (updateConn s x f).conns cid).map connCore = (mget s.conns cid).map connCore := by
  by_cases hx : cid = x
  · subst hx
    rw [mget_updateConn_self]
    cases mget s.conns cid with
    | none => rfl
    | some cc =>
      show some (connCore (f cc)) = some (connCore cc)
      rw [hf cc]
  · rw [mget_updateConn_ne _ _ hx]

theorem mget_core_closeMany (l : List CId) : ∀ (s : ServerState) (cid : CId),
    (mget (closeMany s l).conns cid).map connCore = (mget s.conns cid).map connCore := by
  induction l with
  | nil => intro s cid; rfl
  | cons a t ih =>
    intro s cid
    simp only [closeMany]
    rw [ih]
    exact mget_core_updateConn s a (fun cc => { cc with open_ := false }) (fun cc => rfl) cid

theorem handleClose_conns_reg {s : ServerState} {a : CId} {c : Conn}
    (hg : mget s.conns a = some c) (hreg : c.registered = true) :
    ∃ l, (handleClose s a).1.conns =
      (closeMany (updateConn s a fun cc =>
        { cc with registered := false, open_ := false }) l).conns := by
  cases hrm : c.roomId with
  | none =>
    refine ⟨[], ?_⟩
    simp only [handleClose, hg, hreg, Bool.true_eq_false, if_false, hrm, closeMany]
  | some roomId =>
    cases hroom : mget s.rooms roomId with
    | none =>
      refine ⟨[], ?_⟩
      simp only [handleClose, hg, hreg, Bool.true_eq_false, if_false, hrm,
        rooms_updateConn, hroom, closeMany]
    | some room =>
      by_cases hhost : room.hostId = some a
      · refine ⟨mkeys (remove3 room a).clients, ?_⟩
        simp only [handleClose, hg, hreg, Bool.true_eq_false, if_false, hrm,
          rooms_updateConn, hroom, hhost, if_true]
      · refine ⟨[], ?_⟩
        simp only [handleClose, hg, hreg, Bool.true_eq_false, if_false, hrm,
          rooms_updateConn, hroom, if_neg hhost, closeMany]

theorem handleClose_conns (s : ServerState) (a : CId) :
    (handleClose s a).1.conns = s.conns ∨
    ∃ l, (handleClose s a).1.conns =
      (closeMany (updateConn s a fun cc =>
        { cc with registered := false, open_ := false }) l).conns := by
  cases hg : mget s.conns a with
  | none =>
    left
    simp only [handleClose, hg]
  | some c =>
    cases hreg : c.registered with
    | false =>
      left
      simp only [handleClose, hg, hreg, if_true]
    | true =>
      right
      exact handleClose_conns_reg hg hreg

theorem handleClose_rooms (s : ServerState) (a : CId) :
    (handleClose s a).1.rooms = s.rooms ∨
    (∃ rid, (handleClose s a).1.rooms = mdel s.rooms rid) ∨
    (∃ rid room, mget s.rooms rid = some room ∧
      (handleClose s a).1.rooms = mset s.rooms rid (remove3 room a)) := by
  cases hg : mget s.conns a with
  | none =>
    left
    simp only [handleClose, hg]
  | some c =>
    cases hreg : c.registered with
    | false =>
      left
      simp only [handleClose, hg, hreg, if_true]
    | true =>
      cases hrm : c.roomId with
      | none =>
        left
        simp only [handleClose, hg, hreg, Bool.true_eq_false, if_false, hrm, rooms_updateConn]
      | some roomId =>
        cases hroom : mget s.rooms roomId with
        | none =>
          left
          simp only [handleClose, hg, hreg, Bool.true_eq_false, if_false, hrm,
            rooms_updateConn, hroom]
        | some room =>
          by_cases hhost : room.hostId = some a
          · right
            left
            refine ⟨roomId, ?_⟩
            simp only [handleClose, hg, hreg, Bool.true_eq_false, if_false, hrm,
              rooms_updateConn, hroom, hhost, if_true, rooms_closeMany]
          · by_cases hlen : (remove3 room a).clients.length = 0
            · right
              left
              refine ⟨roomId, ?_⟩
              simp only [handleClose, hg, hreg, Bool.true_eq_false, if_false, hrm,
                rooms_updateConn, hroom, if_neg hhost]
              rw [if_pos hlen]
            · right
              right
              refine ⟨roomId, room, hroom, ?_⟩
              simp only [handleClose, hg, hreg, Bool.true_eq_false, if_false, hrm,
                rooms_updateConn, hroom, if_neg hhost]
              rw [if_neg hlen]

theorem connDown_of_conns_eq {s t : ServerState} {cid : CId} (h : s.conns = t.conns)
    (hd : connDown t cid) : connDown s cid := by
  intro cc hcc
  rw [h] at hcc
  exact hd cc hcc

theorem connDown_updateConn {s : ServerState} {x cid : CId} {f : Conn → Conn}
    (h : connDown s cid)
    (hf : ∀ cc, cc.registered = false ∧ cc.open_ = false →
      (f cc).registered = false ∧ (f cc).open_ = false) :
    connDown (updateConn s x f) cid := by
  intro cc hcc
  by_cases hx : cid = x
  · subst hx
    rw [mget_updateConn_self] at hcc
    cases hs : mget s.conns cid with
    | none =>
      rw [hs] at hcc
      cases hcc
    | some c0 =>
      rw [hs] at hcc
      have he : f c0 = cc := Option.some.inj hcc
      rw [he.symm]
      exact hf c0 (h c0 hs)
  · rw [mget_updateConn_ne _ _ hx] at hcc
    exact h cc hcc

theorem connDown_closeMany (l : List CId) : ∀ {s : ServerState} {cid : CId},
    connDown s cid → connDown (closeMany s l) cid := by
  induction l with
  | nil => intro s cid h; exact h
  | cons a t ih =>
    intro s cid h
    simp only [closeMany]
    exact ih (connDown_updateConn h (fun cc hd => ⟨hd.1, rfl⟩))

theorem connDown_handleClose {s : ServerState} {a cid : CId} (h : connDown s cid) :
    connDown (handleClose s a).1 cid := by
  rcases handleClose_conns s a with h1 | ⟨l, h2⟩
  · exact connDown_of_conns_eq h1 h
  · refine connDown_of_conns_eq h2 ?_
    exact connDown_closeMany l (connDown_updateConn h (fun cc _ => ⟨rfl, rfl⟩))

theorem connDown_sweepStep {s : ServerState} {a cid : CId} (h : connDown s cid) :
    connDown (sweepStep s a).1 cid := by
  cases hg : mget s.conns a with
  | none =>
    simp only [sweepStep, hg]
    exact h
  | some c =>
    cases hreg : c.registered with
    | false =>
      simp only [sweepStep, hg, hreg, if_true]
      exact h
    | true =>
      cases halive : c.isAlive with
      | false =>
        simp only [sweepStep, hg, hreg, Bool.true_eq_false, if_false, halive, if_true]
        exact connDown_handleClose h
      | true =>
        simp only [sweepStep, hg, hreg, Bool.true_eq_false, if_false, halive]
        exact connDown_updateConn h (fun cc hd => hd)

theorem roomP_mdel {rooms : List (Str × Room)} {cid : CId} {rid rid' : Str}
    (h : cid ∉ roomClients rooms rid) : cid ∉ roomClients (mdel rooms rid') rid := by
  unfold roomClients
  by_cases he : rid = rid'
  · subst he
    rw [mget_mdel_self]
    exact List.not_mem_nil cid
  · rw [mget_mdel_ne _ _ _ he]
    exact h

theorem roomP_handleClose {s : ServerState} {a cid : CId} {rid : Str}
    (h : cid ∉ roomClients s.rooms rid) :
    cid ∉ roomClients (handleClose s a).1.rooms rid := by
  rcases handleClose_rooms s a with h1 | ⟨rid', h2⟩ | ⟨rid', room, hget, h3⟩
  · rw [h1]
    exact h
  · rw [h2]
    exact roomP_mdel h
  · rw [h3]
    unfold roomClients
    by_cases he : rid = rid'
    · subst he
      rw [mget_mset_self]
      intro hmem
      have hm2 : cid ∈ mkeys room.clients := by
        have := hmem
        show cid ∈ mkeys room.clients
        have h4 : cid ∈ mkeys (mdel room.clients a) := hmem
        rw [mkeys_mdel] at h4
        exact List.mem_of_mem_filter h4
      apply h
      unfold roomClients
      rw [hget]
      exact hm2
    · rw [mget_mset_ne _ _ _ _ he]
      exact h

theorem roomP_sweepStep {s : ServerState} {a cid : CId} {rid : Str}
    (h : cid ∉ roomClients s.rooms rid) :
    cid ∉ roomClients (sweepStep s a).1.rooms rid := by
  cases hg : mget s.conns a with
  | none =>
    simp only [sweepStep, hg]
    exact h
  | some c =>
    cases hreg : c.registered with
    | false =>
      simp only [sweepStep, hg, hreg, if_true]
      exact h
    | true =>
      cases halive : c.isAlive with
      | false =>
        simp only [sweepStep, hg, hreg, Bool.true_eq_false, if_false, halive, if_true]
        exact roomP_handleClose h
      | true =>
        simp only [sweepStep, hg, hreg, Bool.true_eq_false, if_false, halive, rooms_updateConn]
        exact h

theorem handleClose_other_core {s : ServerState} {a cid : CId} (hne : cid ≠ a) :
    (mget (handleClose s a).1.conns cid).map connCore = (mget s.conns cid).map connCore := by
  rcases handleClose_conns s a with h1 | ⟨l, h2⟩
  · rw [h1]
  · rw [h2, mget_core_closeMany, mget_updateConn_ne _ _ hne]

theorem sweepStep_other_core {s : ServerState} {a cid : CId} (hne : cid ≠ a) :
    (mget (sweepStep s a).1.conns cid).map connCore = (mget s.conns cid).map connCore := by
  cases hg : mget s.conns a with
  | none => simp only [sweepStep, hg]
  | some c =>
    cases hreg : c.registered with
    | false => simp only [sweepStep, hg, hreg, if_true]
    | true =>
      cases halive : c.isAlive with
      | false =>
        simp only [sweepStep, hg, hreg, Bool.true_eq_false, if_false, halive, if_true]
        exact handleClose_other_core hne
      | true =>
        simp only [sweepStep, hg, hreg, Bool.true_eq_false, if_false, halive]
        rw [mget_updateConn_ne _ _ hne]

theorem sweepStep_pending {s : ServerState} {cid : CId} {c : Conn}
    (hg : mget s.conns cid = some c) (hreg : c.registered = true)
    (halive : c.isAlive = false) : sweepStep s cid = handleClose s cid := by
  simp only [sweepStep, hg, hreg, Bool.true_eq_false, if_false, halive, if_true]

theorem sweepStep_alive {s : ServerState} {cid : CId} {c : Conn}
    (hg : mget s.conns cid = some c) (hreg : c.registered = true)
    (halive : c.isAlive = true) :
    sweepStep s cid =
      (updateConn s cid (fun cc => { cc with isAlive := false }), [(cid, OutMsg.ping)]) := by
  simp only [sweepStep, hg, hreg, Bool.true_eq_false, if_false, halive]

theorem handleClose_makes_down {s : ServerState} {cid : CId} {c : Conn}
    (hg : mget s.conns cid = some c) (hreg : c.registered = true) :
    connDown (handleClose s cid).1 cid := by
  obtain ⟨l, h2⟩ := handleClose_conns_reg hg hreg
  refine connDown_of_conns_eq h2 ?_
  apply connDown_closeMany
  intro cc hcc
  rw [mget_updateConn_self, hg] at hcc
  have he := Option.some.inj hcc
  rw [he.symm]
  exact ⟨rfl, rfl⟩

theorem handleClose_removes {s : ServerState} {cid : CId} {c : Conn} {rid : Str}
    (hg : mget s.conns cid = some c) (hreg : c.registered = true)
    (hrm : c.roomId = some rid) :
    cid ∉ roomClients (handleClose s cid).1.rooms rid := by
  cases hroom : mget s.rooms rid with
  | none =>
    simp only [handleClose, hg, hreg, Bool.true_eq_false, if_false, hrm,
      rooms_updateConn, hroom]
    unfold roomClients
    rw [hroom]
    exact List.not_mem_nil cid
  | some room =>
    by_cases hhost : room.hostId = some cid
    · simp only [handleClose, hg, hreg, Bool.true_eq_false, if_false, hrm,
        rooms_updateConn, hroom, hhost, if_true, rooms_closeMany]
      unfold roomClients
      rw [mget_mdel_self]
      exact List.not_mem_nil cid
    · simp only [handleClose, hg, hreg, Bool.true_eq_false, if_false, hrm,
        rooms_updateConn, hroom, if_neg hhost]
      by_cases hlen : (remove3 room cid).clients.length = 0
      · rw [if_pos hlen]
        unfold roomClients
        rw [mget_mdel_self]
        exact List.not_mem_nil cid
      · rw [if_neg hlen]
        unfold roomClients
        rw [mget_mset_self]
        intro hmem
        exact (mem_mkeys_mdel_ne hmem) rfl

theorem mkeys_map_upd {α β : Type} [DecidableEq α] (m : List (α × β)) (k : α) (g : β → β) :
    mkeys (m.map (updEntry k g)) = mkeys m := by
  induction m with
  | nil => rfl
  | cons p t ih =>
    obtain ⟨a, b⟩ := p
    by_cases hp : a = k
    · subst hp
      rw [List.map_cons, updEntry_self]
      simp only [mkeys, List.map_cons] at ih ⊢
      simp [ih]
    · rw [List.map_cons, updEntry_other _ _ hp]
      simp only [mkeys, List.map_cons] at ih ⊢
      simp [ih]

theorem mkeys_conns_updateConn (s : ServerState) (x : CId) (f : Conn → Conn) :
    mkeys (updateConn s x f).conns = mkeys s.conns :=
  mkeys_map_upd s.conns x f

theorem mkeys_conns_closeMany (l : List CId) : ∀ (s : ServerState),
    mkeys (closeMany s l).conns = mkeys s.conns := by
  induction l with
  | nil => intro s; rfl
  | cons a t ih =>
    intro s
    simp only [closeMany]
    rw [ih, mkeys_conns_updateConn]

theorem mkeys_conns_handleClose (s : ServerState) (a : CId) :
    mkeys (handleClose s a).1.conns = mkeys s.conns := by
  rcases handleClose_conns s a with h1 | ⟨l, h2⟩
  · rw [h1]
  · rw [h2, mkeys_conns_closeMany, mkeys_conns_updateConn]

theorem mkeys_conns_sweepStep (s : ServerState) (a : CId) :
    mkeys (sweepStep s a).1.conns = mkeys s.conns := by
  cases hg : mget s.conns a with
  | none => simp only [sweepStep, hg]
  | some c =>
    cases hreg : c.registered with
    | false => simp only [sweepStep, hg, hreg, if_true]
    | true =>
      cases halive : c.isAlive with
      | false =>
        simp only [sweepStep, hg, hreg, Bool.true_eq_false, if_false, halive, if_true]
        exact mkeys_conns_handleClose s a
      | true =>
        simp only [sweepStep, hg, hreg, Bool.true_eq_false, if_false, halive]
        exact mkeys_conns_updateConn s a _

theorem mkeys_conns_sweepFold (l : List CId) : ∀ (s : ServerState) (outs : List Send),
    mkeys (sweepFold s outs l).1.conns = mkeys s.conns := by
  induction l with
  | nil => intro s outs; rfl
  | cons a t ih =>
    intro s outs
    simp only [sweepFold]
    rw [ih, mkeys_conns_sweepStep]

theorem sweepFold_other_core (l : List CId) : ∀ (s : ServerState) (outs : List Send) {cid : CId},
    cid ∉ l →
    (mget (sweepFold s outs l).1.conns cid).map connCore = (mget s.conns cid).map connCore := by
  induction l with
  | nil => intro s outs cid _; rfl
  | cons a t ih =>
    intro s outs cid hcid
    have h1 : cid ≠ a := fun e => hcid (e ▸ List.mem_cons_self a t)
    have h2 : cid ∉ t := fun ht => hcid (List.mem_cons_of_mem _ ht)
    simp only [sweepFold]
    rw [ih _ _ h2, sweepStep_other_core h1]

theorem connDown_sweepFold (l : List CId) : ∀ (s : ServerState) (outs : List Send) {cid : CId},
    connDown s cid → connDown (sweepFold s outs l).1 cid := by
  induction l with
  | nil => intro s outs cid h; exact h
  | cons a t ih =>
    intro s outs cid h
    simp only [sweepFold]
    exact ih _ _ (connDown_sweepStep h)

theorem roomP_sweepFold (l : List CId) : ∀ (s : ServerState) (outs : List Send) {cid : CId}
    {rid : Str}, cid ∉ roomClients s.rooms rid →
    cid ∉ roomClients (sweepFold s outs l).1.rooms rid := by
  induction l with
  | nil => intro s outs cid rid h; exact h
  | cons a t ih =>
    intro s outs cid rid h
    simp only [sweepFold]
    exact ih _ _ (roomP_sweepStep h)

theorem sweepFold_outs_mono (l : List CId) : ∀ (s : ServerState) (outs : List Send) {p : Send},
    p ∈ outs → p ∈ (sweepFold s outs l).2 := by
  induction l with
  | nil => intro s outs p h; exact h
  | cons a t ih =>
    intro s outs p h
    simp only [sweepFold]
    exact ih _ _ (List.mem_append_left _ h)

theorem sweepFold_reaps (l : List CId) : ∀ (s : ServerState) (outs : List Send) (cid : CId)
    (c : Conn), cid ∈ l → mget s.conns cid = some c → c.registered = true →
    c.isAlive = false →
    connDown (sweepFold s outs l).1 cid ∧
    (∀ rid, c.roomId = some rid → cid ∉ roomClients (sweepFold s outs l).1.rooms rid) := by
  induction l with
  | nil => intro s outs cid c hmem _ _ _; cases hmem
  | cons a t ih =>
    intro s outs cid c hmem hg hreg halive
    simp only [sweepFold]
    by_cases hac : a = cid
    · subst hac
      rw [sweepStep_pending hg hreg halive]
      constructor
      · exact connDown_sweepFold t _ _ (handleClose_makes_down hg hreg)
      · intro rid hrid
        exact roomP_sweepFold t _ _ (handleClose_removes hg hreg hrid)
    · have hmem2 : cid ∈ t := by
        rcases List.mem_cons.mp hmem with he | ht
        · exact absurd he.symm hac
        · exact ht
      have hne : cid ≠ a := fun e => hac e.symm
      have hcore := sweepStep_other_core (s := s) hne
      rw [hg] at hcore
      cases hg2 : mget (sweepStep s a).1.conns cid with
      | none =>
        rw [hg2] at hcore
        cases hcore
      | some c2 =>
        rw [hg2] at hcore
        have hcc : connCore c2 = connCore c := Option.some.inj hcore
        have hreg2 : c2.registered = true := by
          have h4 : c2.registered = c.registered := congrArg (fun q => q.2.2.2) hcc
          rw [h4]
          exact hreg
        have halive2 : c2.isAlive = false := by
          have h4 : c2.isAlive = c.isAlive := congrArg (fun q => q.2.2.1) hcc
          rw [h4]
          exact halive
        have hroom2 : c2.roomId = c.roomId := congrArg (fun q => q.1) hcc
        have hres := ih (sweepStep s a).1 (outs ++ (sweepStep s a).2) cid c2 hmem2 hg2 hreg2
          halive2
        refine ⟨hres.1, ?_⟩
        intro rid hrid
        exact hres.2 rid (by rw [hroom2, hrid])

theorem sweepFold_probes (l : List CId) : ∀ (s : ServerState) (outs : List Send) (cid : CId)
    (c : Conn), l.Nodup → cid ∈ l → mget s.conns cid = some c → c.registered = true →
    c.isAlive = true →
    (∃ c2, mget (sweepFold s outs l).1.conns cid = some c2 ∧ c2.isAlive = false ∧
      c2.registered = true ∧ c2.roomId = c.roomId) ∧
    (cid, OutMsg.ping) ∈ (sweepFold s outs l).2 := by
  induction l with
  | nil => intro s outs cid c _ hmem _ _ _; cases hmem
  | cons a t ih =>
    intro s outs cid c hnd hmem hg hreg halive
    simp only [sweepFold]
    by_cases hac : a = cid
    · subst hac
      rw [sweepStep_alive hg hreg halive]
      have hnotin : a ∉ t := (List.nodup_cons.mp hnd).1
      constructor
      · have hcore := sweepFold_other_core t
          (updateConn s a (fun cc => { cc with isAlive := false }))
          (outs ++ [(a, OutMsg.ping)]) hnotin
        rw [mget_updateConn_self, hg] at hcore
        cases hg2 : mget (sweepFold
            (updateConn s a (fun cc => { cc with isAlive := false }))
            (outs ++ [(a, OutMsg.ping)]) t).1.conns a with
        | none =>
          rw [hg2] at hcore
          cases hcore
        | some c2 =>
          rw [hg2] at hcore
          have hcc : connCore c2 = connCore { c with isAlive := false } :=
            Option.some.inj hcore
          refine ⟨c2, rfl, ?_, ?_, ?_⟩
          · exact congrArg (fun q => q.2.2.1) hcc
          · have h4 : c2.registered = ({ c with isAlive := false } : Conn).registered :=
              congrArg (fun q => q.2.2.2) hcc
            exact h4.trans hreg
          · exact congrArg (fun q => q.1) hcc
      · apply sweepFold_outs_mono
        exact List.mem_append_right _ (List.mem_singleton_self _)
    · have hnd2 : t.Nodup := (List.nodup_cons.mp hnd).2
      have hmem2 : cid ∈ t := by
        rcases List.mem_cons.mp hmem with he | ht
        · exact absurd he.symm hac
        · exact ht
      have hne : cid ≠ a := fun e => hac e.symm
      have hcore := sweepStep_other_core (s := s) hne
      rw [hg] at hcore
      cases hg2 : mget (sweepStep s a).1.conns cid with
      | none =>
        rw [hg2] at hcore
        cases hcore
      | some c2 =>
        rw [hg2] at hcore
        have hcc : connCore c2 = connCore c := Option.some.inj hcore
        have hreg2 : c2.registered = true := by
          have h4 : c2.registered = c.registered := congrArg (fun q => q.2.2.2) hcc
          rw [h4]
          exact hreg
        have halive2 : c2.isAlive = true := by
          have h4 : c2.isAlive = c.isAlive := congrArg (fun q => q.2.2.1) hcc
          rw [h4]
          exact halive
        have hroom2 : c2.roomId = c.roomId := congrArg (fun q => q.1) hcc
        obtain ⟨⟨c3, hg3, h5, h6, h7⟩, hping⟩ := ih (sweepStep s a).1
          (outs ++ (sweepStep s a).2) cid c2 hnd2 hmem2 hg2 hreg2 halive2
        exact ⟨⟨c3, hg3, h5, h6, h7.trans hroom2⟩, hping⟩

theorem close_noop {s : ServerState} {cid : CId} (h : connDown s cid) :
    step s (.close cid) = (s, []) := by
  show handleClose s cid = (s, [])
  cases hg : mget s.conns cid with
  | none => simp only [handleClose, hg]
  | some c =>
    have hr := (h c hg).1
    simp only [handleClose, hg, hr, if_true]

/-- C8: in a liveness sweep, a registered connection whose flag is pending
is forcibly closed and deregistered and its room-membership teardown runs
(through the same close handler, which is a no-op afterwards); every
other registered connection has its flag set to pending and a probe sent;
hence a connection that responds to no probe between two consecutive
sweeps is deregistered, closed, and torn down after the second sweep. -/
theorem c8_liveness_sweep (s : ServerState) (cid : CId) (c : Conn)
    (hnd : (mkeys s.conns).Nodup)
    (hg : mget s.conns cid = some c) (hreg : c.registered = true) :
    (c.isAlive = false →
      (∃ c2, mget (step s .sweep).1.conns cid = some c2 ∧
        c2.registered = false ∧ c2.open_ = false) ∧
      (∀ rid, c.roomId = some rid →
        cid ∉ roomClients (step s .sweep).1.rooms rid) ∧
      step (step s .sweep).1 (.close cid) = ((step s .sweep).1, [])) ∧
    (c.isAlive = true →
      (∃ c2, mget (step s .sweep).1.conns cid = some c2 ∧ c2.isAlive = false ∧
        c2.registered = true ∧ c2.roomId = c.roomId) ∧
      (cid, OutMsg.ping) ∈ (step s .sweep).2) ∧
    (c.isAlive = true →
      (∃ c2, mget (step (step s .sweep).1 .sweep).1.conns cid = some c2 ∧
        c2.registered = false ∧ c2.open_ = false) ∧
      (∀ rid, c.roomId = some rid →
        cid ∉ roomClients (step (step s .sweep).1 .sweep).1.rooms rid) ∧
      step (step (step s .sweep).1 .sweep).1 (.close cid) =
        ((step (step s .sweep).1 .sweep).1, [])) := by
  have hmem : cid ∈ mkeys s.conns := mget_isSome_iff.mp (by rw [hg]; rfl)
  refine ⟨?_, ?_, ?_⟩
  · intro halive
    obtain ⟨hdown, hP⟩ := sweepFold_reaps (mkeys s.conns) s [] cid c hmem hg hreg halive
    have hpresent : cid ∈ mkeys (step s .sweep).1.conns := by
      show cid ∈ mkeys (sweepFold s [] (mkeys s.conns)).1.conns
      rw [mkeys_conns_sweepFold]
      exact hmem
    have hsome : (mget (step s .sweep).1.conns cid).isSome = true :=
      mget_isSome_iff.mpr hpresent
    cases hg2 : mget (step s .sweep).1.conns cid with
    | none =>
      rw [hg2] at hsome
      cases hsome
    | some c2 =>
      have hd := hdown c2 hg2
      exact ⟨⟨c2, rfl, hd.1, hd.2⟩, hP, close_noop hdown⟩
  · intro halive
    exact sweepFold_probes (mkeys s.conns) s [] cid c hnd hmem hg hreg halive
  · intro halive
    obtain ⟨⟨c2, hg2, halive2, hreg2, hroom2⟩, _⟩ :=
      sweepFold_probes (mkeys s.conns) s [] cid c hnd hmem hg hreg halive
    have hnd1 : (mkeys (step s .sweep).1.conns).Nodup := by
      show (mkeys (sweepFold s [] (mkeys s.conns)).1.conns).Nodup
      rw [mkeys_conns_sweepFold]
      exact hnd
    have hmem1 : cid ∈ mkeys (step s .sweep).1.conns :=
      mget_isSome_iff.mp (by
        show (mget (sweepFold s [] (mkeys s.conns)).1.conns cid).isSome = true
        rw [hg2]
        rfl)
    obtain ⟨hdown, hP⟩ := sweepFold_reaps (mkeys (step s .sweep).1.conns) (step s .sweep).1
      [] cid c2 hmem1 hg2 hreg2 halive2
    have hpresent : cid ∈ mkeys (step (step s .sweep).1 .sweep).1.conns := by
      show cid ∈ mkeys (sweepFold (step s .sweep).1 []
        (mkeys (step s .sweep).1.conns)).1.conns
      rw [mkeys_conns_sweepFold]
      exact hmem1
    have hsome : (mget (step (step s .sweep).1 .sweep).1.conns cid).isSome = true :=
      mget_isSome_iff.mpr hpresent
    cases hg3 : mget (step (step s .sweep).1 .sweep).1.conns cid with
    | none =>
      rw [hg3] at hsome
      cases hsome
    | some c3 =>
      have hd := hdown c3 hg3
      refine ⟨⟨c3, rfl, hd.1, hd.2⟩, ?_, close_noop hdown⟩
      intro rid hrid
      exact hP rid (by rw [hroom2, hrid])

/-- Witness for C8: sweeping the demo state probes the live host. -/
theorem c8_liveness_sweep_witness :
    ((("h").toList), OutMsg.ping) ∈ (step demoState .sweep).2 :=
  ((c8_liveness_sweep demoState (("h").toList) demoConnH (by decide) (by rfl)
    (by rfl)).2.1 (by rfl)).2

end UWT
